import Mathlib

set_option maxRecDepth 100000

/-!
# CharacterExplorer: verification of the aggregation/enrichment pipeline

A shallow embedding of `src/lib.py` (class `CharacterExplorer`).  Python
dicts are modelled as association lists that keep insertion order, with the
dict operations (`d[k]`, `d[k] = v`, `del d[k]`) as `dlookup`, `dset`,
`ddel`: assignment to an existing key updates the binding in place,
assignment to a fresh key appends it at the end, deletion removes the
binding, exactly as CPython dicts behave.
-/

section DictModel

variable {κ : Type} {ν : Type} [DecidableEq κ]

/-- `d[k]`: the value bound to `k`, if any (first binding wins). -/
def dlookup : List (κ × ν) → κ → Option ν
  | [], _ => none
  | (k, v) :: rest, key => if k = key then some v else dlookup rest key

/-- `d[k] = v`: update the existing binding in place, else append at the end. -/
def dset : List (κ × ν) → κ → ν → List (κ × ν)
  | [], key, val => [(key, val)]
  | (k, v) :: rest, key, val =>
    if k = key then (k, val) :: rest else (k, v) :: dset rest key val

/-- `del d[k]`: remove the binding of `k`. -/
def ddel : List (κ × ν) → κ → List (κ × ν)
  | [], _ => []
  | (k, v) :: rest, key => if k = key then rest else (k, v) :: ddel rest key

/-- A `for (k, v) in pairs: d[k] = v` loop, as used to build lookup dicts. -/
def buildLookup (pairs : List (κ × ν)) : List (κ × ν) :=
  pairs.foldl (fun d p => dset d p.1 p.2) []

theorem dlookup_dset_ne (d : List (κ × ν)) (k k' : κ) (v : ν) (h : k ≠ k') :
    dlookup (dset d k' v) k = dlookup d k := by
  induction d with
  | nil => simp [dset, dlookup, (Ne.symm h)]
  | cons p rest ih =>
    obtain ⟨pk, pv⟩ := p
    by_cases hpk : pk = k'
    · subst hpk
      simp [dset, dlookup, (Ne.symm h)]
    · simp only [dset, if_neg hpk]
      by_cases hk : pk = k
      · simp [dlookup, hk]
      · simp [dlookup, hk, ih]

theorem dlookup_ddel_ne (d : List (κ × ν)) (k k' : κ) (h : k ≠ k') :
    dlookup (ddel d k') k = dlookup d k := by
  induction d with
  | nil => simp [ddel]
  | cons p rest ih =>
    obtain ⟨pk, pv⟩ := p
    by_cases hpk : pk = k'
    · subst hpk
      simp [ddel, dlookup, (Ne.symm h)]
    · simp only [ddel, if_neg hpk]
      by_cases hk : pk = k
      · simp [dlookup, hk]
      · simp [dlookup, hk, ih]

/-- Setting a key that is absent appends the binding at the end. -/
theorem dset_fresh (d : List (κ × ν)) (k : κ) (v : ν)
    (h : k ∉ d.map Prod.fst) : dset d k v = d ++ [(k, v)] := by
  induction d with
  | nil => simp [dset]
  | cons p rest ih =>
    simp only [List.map_cons, List.mem_cons] at h
    push_neg at h
    simp [dset, Ne.symm h.1, ih h.2]

/-- Folding `dset` over bindings with fresh, pairwise distinct keys appends
them all in order. -/
theorem foldl_dset_eq_append (l : List (κ × ν)) :
    ∀ acc : List (κ × ν), (∀ p ∈ l, p.1 ∉ acc.map Prod.fst) →
    (l.map Prod.fst).Nodup →
    l.foldl (fun d p => dset d p.1 p.2) acc = acc ++ l := by
  induction l with
  | nil => simp
  | cons p rest ih =>
    intro acc hfresh hnd
    simp only [List.map_cons, List.nodup_cons] at hnd
    have h1 : p.1 ∉ acc.map Prod.fst := hfresh p (by simp)
    have hstep : dset acc p.1 p.2 = acc ++ [(p.1, p.2)] := dset_fresh acc p.1 p.2 h1
    simp only [List.foldl_cons, hstep]
    rw [ih (acc ++ [(p.1, p.2)]) ?fresh hnd.2]
    · simp
    case fresh =>
      intro q hq
      simp only [List.map_append, List.mem_append, List.map_cons]
      push_neg
      refine ⟨hfresh q (by simp [hq]), ?_⟩
      simp only [List.map_nil, List.mem_singleton]
      intro hcontra
      exact hnd.1 (hcontra ▸ (List.mem_map_of_mem Prod.fst hq))

/-- `buildLookup` over bindings with pairwise distinct keys is the list itself. -/
theorem buildLookup_nodup (l : List (κ × ν)) (h : (l.map Prod.fst).Nodup) :
    buildLookup l = l := by
  simpa [buildLookup] using foldl_dset_eq_append l [] (by simp) h

theorem dlookup_eq_none_of_not_mem (d : List (κ × ν)) (k : κ)
    (h : k ∉ d.map Prod.fst) : dlookup d k = none := by
  induction d with
  | nil => simp [dlookup]
  | cons p rest ih =>
    simp only [List.map_cons, List.mem_cons] at h
    push_neg at h
    simp [dlookup, Ne.symm h.1, ih h.2]

end DictModel

/-!
## Entity Name Resolver (`_ids_to_names`, src/lib.py 199-224)

The method chunks the input into groups of 1000
(`groups = [ids[i:i + group_size] for i in range(0, len(ids), group_size)]`)
and loops over the groups, but each iteration issues the request
`post_universe_names(ids=set(ids))` — the *whole* input, `set(ids)`, not
`set(group)`.  We embed that faithfully: `pySet` models Python's `set(ids)`
by its (deduplicated) contents, and the payload handed to the client is the
same `pySet ids` on every call.  The external client is a parameter: call
number `i` with payload `p` yields either a raised exception (`.exn`) or a
response with a status code and a list of `(id, name)` entries.
-/

/-- `set(ids)`, modelled by its contents with duplicates removed. -/
def pySet (ids : List Nat) : List Nat := ids.dedup

/-- `[ids[i:i + 1000] for i in range(0, len(ids), 1000)]`: the slice start
indices `range(0, len(ids), 1000)` are `List.range' 0 ⌈len/1000⌉ 1000`, and
`ids[i:i + 1000]` is `(ids.drop i).take 1000`. -/
def pyChunks (ids : List Nat) : List (List Nat) :=
  (List.range' 0 ((ids.length + 999) / 1000) 1000).map
    (fun i => (ids.drop i).take 1000)

/-- Outcome of one `client.request` for `post_universe_names`. -/
inductive CallOutcome where
  | exn : CallOutcome
  | resp (status : Nat) (entries : List (Nat × String)) : CallOutcome

/-- The body of the `for group in groups` loop: call `i` is issued with the
loop-invariant payload (the group itself is unused by the source, apart from
a debug print); an exception or a non-200 status contributes nothing, a 200
response has its entries appended to `data`. -/
def idsToNamesData (client : Nat → List Nat → CallOutcome) (payload : List Nat) :
    List (List Nat) → Nat → List (Nat × String)
  | [], _ => []
  | _group :: rest, i =>
    (match client i payload with
      | .exn => []
      | .resp status entries => if status = 200 then entries else [])
    ++ idsToNamesData client payload rest (i + 1)

/-- `_ids_to_names`: resolve ids to names and build the lookup dict. -/
def ids_to_names (client : Nat → List Nat → CallOutcome) (ids : List Nat) :
    List (Nat × String) :=
  let groups := pyChunks ids
  let data := idsToNamesData client (pySet ids) groups 0
  buildLookup data

/-- The sequence of request payloads `_ids_to_names` issues: one call per
group, each carrying `set(ids)`. -/
def idsToNamesRequests (ids : List Nat) : List (List Nat) :=
  (pyChunks ids).map (fun _group => pySet ids)

/-- Client environment for the partial-failure scenario: the first call
raises, every later call succeeds with status 200 and resolves every id of
its payload. -/
def clientFirstCallFails : Nat → List Nat → CallOutcome :=
  fun i payload =>
    if i = 0 then .exn else .resp 200 (payload.map (fun n => (n, "Resolved")))

/-- C1: `_ids_to_names` on 1001 distinct ids does issue `ceil(1001/1000) = 2`
batch calls, but each call's payload is the whole 1001-id input (`set(ids)`),
not its group's ids — the groups have sizes 1000 and 1.  This refutes the
claim's "one per group with exactly that group's ids" at this input. -/
theorem ids_to_names_payload_is_whole_input :
    (idsToNamesRequests (List.range 1001)).length = 2 ∧
    (idsToNamesRequests (List.range 1001)).map List.length = [1001, 1001] ∧
    (pyChunks (List.range 1001)).map List.length = [1000, 1] := by
  have h : pySet (List.range 1001) = List.range 1001 := (List.nodup_range 1001).dedup
  refine ⟨rfl, ?_, rfl⟩
  simp only [idsToNamesRequests, List.map_map, Function.comp_def, h,
    List.length_range]
  rfl

/-- C6: with 1001 distinct ids (groups `0..999` and `[1000]`), the first
group's call raising and the second group's call succeeding, the returned
mapping still resolves id 0 — an id of the *failed* group — because every
call's payload is `set(ids)`, the whole input.  The claim's "every id of the
failed group is absent from the returned mapping" fails at this input. -/
theorem ids_to_names_failed_group_id_still_resolved :
    dlookup (ids_to_names clientFirstCallFails (List.range 1001)) 0 =
      some "Resolved" := by
  have h : pySet (List.range 1001) = List.range 1001 := (List.nodup_range 1001).dedup
  simp only [ids_to_names, h]
  rfl

/-!
## Time-Windowed Backfill Scanner (`fetch_mail`, src/lib.py 291-314)

`fetch_mail` fetches the first page with no cursor, then loops: if the last
accumulated record's timestamp is older than `back_until` it breaks;
otherwise it fetches the next page with cursor `last_mail_id =
data[-1]['mail_id']`, breaking on an empty page, else extending `data`.
The mail source is a parameter `feed : Option Nat → List MailRec` (the
cursor is `none` for the first request).  Timestamps are modelled as
seconds (`_convert_swagger_dt` is an order-isomorphism onto them), so
`datetime.timedelta(days=30 * 6)` is `(30 * 6) * 86400` seconds.  The
`while True:` loop is given fuel; `data[-1]` on an empty list raises
`IndexError`, which the embedding returns as an error value.  `fetchMailRun`
also returns the list of cursors requested inside the loop, so that "how
many fetches were issued" is part of the embedding.
-/

/-- Ways `fetch_mail` can fail to return: a raised `IndexError`, or the
fuel ran out (the source loop would still be running). -/
inductive MailErr where
  | indexError : MailErr
  | outOfFuel : MailErr
deriving DecidableEq

structure Recipient where
  recipient_id : Nat
  recipient_name : Option String := none
deriving DecidableEq

/-- A mail header record.  `fromId` embeds the source's `from` field
(a Lean keyword). -/
structure MailRec where
  mail_id : Nat
  timestamp : Int
  fromId : Nat := 0
  recipients : List Recipient := []
  from_name : Option String := none
deriving DecidableEq

/-- One day of `datetime.timedelta`, in seconds. -/
def secondsPerDay : Int := 86400

/-- The `while True:` loop of `fetch_mail`.  Returns the outcome and the
list of cursors requested inside the loop. -/
def fetchMailRun (feed : Option Nat → List MailRec) (back_until : Int) :
    Nat → List MailRec → Except MailErr (List MailRec) × List (Option Nat)
  | 0, _data => (.error .outOfFuel, [])
  | fuel + 1, data =>
    match data.getLast? with
    | none => (.error .indexError, [])
    | some last =>
      if last.timestamp < back_until then (.ok data, [])
      else if (feed (some last.mail_id)).isEmpty then (.ok data, [some last.mail_id])
      else
        ((fetchMailRun feed back_until fuel (data ++ feed (some last.mail_id))).1,
          some last.mail_id ::
            (fetchMailRun feed back_until fuel (data ++ feed (some last.mail_id))).2)

/-- `fetch_mail`: default boundary `utcnow() - timedelta(days=30 * 6)`
(`back_until or ...`; a datetime is never falsy, so `or` is a None check),
then the first fetch followed by the loop. -/
def fetch_mail (feed : Option Nat → List MailRec) (now : Int)
    (back_until : Option Int) (fuel : Nat) : Except MailErr (List MailRec) :=
  let bu := back_until.getD (now - 30 * 6 * secondsPerDay)
  (fetchMailRun feed bu fuel (feed none)).1

/-- All requests `fetch_mail` issues: the cursor-less first fetch, then the
loop's cursors. -/
def fetch_mail_requests (feed : Option Nat → List MailRec) (now : Int)
    (back_until : Option Int) (fuel : Nat) : List (Option Nat) :=
  let bu := back_until.getD (now - 30 * 6 * secondsPerDay)
  none :: (fetchMailRun feed bu fuel (feed none)).2

/-- The feed that always returns an empty page. -/
def emptyFeed : Option Nat → List MailRec := fun _ => []

/-- C3: on an empty first page, `fetch_mail` does issue exactly one fetch,
but then evaluates `data[-1]` on the empty accumulator and raises
`IndexError` instead of returning the empty sequence. -/
theorem fetch_mail_empty_first_page_raises :
    fetch_mail emptyFeed 0 none 5 = .error .indexError ∧
    fetch_mail_requests emptyFeed 0 none 5 = [none] :=
  ⟨rfl, rfl⟩

/-- Mail records of a feed with strictly decreasing timestamps. -/
def mailA : MailRec := { mail_id := 1, timestamp := 200 }

def mailB : MailRec := { mail_id := 2, timestamp := 150 }

def mailC : MailRec := { mail_id := 3, timestamp := 120 }

def mailD : MailRec := { mail_id := 4, timestamp := 50 }

/-- A two-page feed: the second page straddles the boundary 100 — `mailC`
is newer than 100, `mailD` older. -/
def mailFeedTwoPages : Option Nat → List MailRec := fun cursor =>
  match cursor with
  | none => [mailA, mailB]
  | some 2 => [mailC, mailD]
  | some _ => []

/-- A one-page feed whose follow-up fetch is empty. -/
def mailFeedOnePage : Option Nat → List MailRec := fun cursor =>
  match cursor with
  | none => [mailA]
  | some _ => []

/-- C2 counterexample: with boundary 100, the scan returns all four fetched
records — `mailD`, whose timestamp 50 is older than the boundary, is
emitted, so the output is not the prefix of records at or newer than the
boundary (`[mailA, mailB, mailC]`). -/
theorem fetch_mail_emits_pre_boundary_records :
    fetch_mail mailFeedTwoPages 0 (some 100) 5 =
      .ok [mailA, mailB, mailC, mailD] ∧
    mailD.timestamp < 100 :=
  ⟨rfl, by decide⟩

/-- C2 (amended): once the oldest accumulated record is older than the
boundary, the scanner stops without issuing any further fetch and returns
everything accumulated so far *unfiltered*; in general a normal return
extends the accumulated records — no record is ever dropped, including
those on the final page that are older than the boundary. -/
theorem fetch_mail_boundary_stops_fetching_without_filtering :
    (∀ (feed : Option Nat → List MailRec) (bu : Int) (fuel : Nat)
      (data : List MailRec) (last : MailRec),
      data.getLast? = some last → last.timestamp < bu →
      fetchMailRun feed bu (fuel + 1) data = (.ok data, [])) ∧
    (∀ (feed : Option Nat → List MailRec) (bu : Int) (fuel : Nat)
      (data res : List MailRec) (reqs : List (Option Nat)),
      fetchMailRun feed bu fuel data = (.ok res, reqs) →
      ∃ tail, res = data ++ tail) := by
  constructor
  · intro feed bu fuel data last hlast hts
    simp [fetchMailRun, hlast, hts]
  · intro feed bu fuel
    induction fuel with
    | zero =>
      intro data res reqs h
      simp [fetchMailRun] at h
    | succ n ih =>
      intro data res reqs h
      rw [fetchMailRun] at h
      split at h
      · simp at h
      · rename_i last hlast
        split at h
        · simp only [Prod.mk.injEq, Except.ok.injEq] at h
          exact ⟨[], by simp [← h.1]⟩
        · split at h
          · simp only [Prod.mk.injEq, Except.ok.injEq] at h
            exact ⟨[], by simp [← h.1]⟩
          · simp only [Prod.mk.injEq] at h
            obtain ⟨tail, htail⟩ :=
              ih (data ++ feed (some last.mail_id)) res
                (fetchMailRun feed bu n (data ++ feed (some last.mail_id))).2
                (by rw [← h.1])
            exact ⟨feed (some last.mail_id) ++ tail, by simp [htail]⟩

/-- Witness for the amended C2 theorem: with boundary 300, the single
accumulated record `mailA` (timestamp 200) is already past the boundary, so
the loop returns it at once with no further fetch. -/
theorem fetch_mail_boundary_stop_witness :
    fetchMailRun mailFeedOnePage 300 1 [mailA] = (.ok [mailA], []) :=
  fetch_mail_boundary_stops_fetching_without_filtering.1
    mailFeedOnePage 300 0 [mailA] mailA rfl (by decide)

/-- C9: the default boundary is exactly 180 days before the current time
(`timedelta(days=30 * 6)`), and a normal return happens only when the
boundary is crossed or a fetch comes back empty — the size of a page never
enters the loop, so a short but non-empty page is not a termination
signal. -/
theorem fetch_mail_default_window_and_stop_conditions :
    (∀ (feed : Option Nat → List MailRec) (now : Int) (fuel : Nat),
      fetch_mail feed now none fuel =
        fetch_mail feed now (some (now - 180 * 86400)) fuel) ∧
    (∀ (feed : Option Nat → List MailRec) (bu : Int) (fuel : Nat)
      (data res : List MailRec) (reqs : List (Option Nat)),
      fetchMailRun feed bu fuel data = (.ok res, reqs) →
      ∀ last, res.getLast? = some last →
      last.timestamp < bu ∨ feed (some last.mail_id) = []) := by
  constructor
  · intro feed now fuel
    norm_num [fetch_mail, secondsPerDay]
  · intro feed bu fuel
    induction fuel with
    | zero =>
      intro data res reqs h
      simp [fetchMailRun] at h
    | succ n ih =>
      intro data res reqs h
      rw [fetchMailRun] at h
      split at h
      · simp at h
      · rename_i last hlast
        split at h
        · rename_i hts
          simp only [Prod.mk.injEq, Except.ok.injEq] at h
          intro last' hlast'
          rw [← h.1, hlast] at hlast'
          obtain rfl : last = last' := Option.some_inj.mp hlast'
          exact Or.inl hts
        · split at h
          · rename_i hempty
            simp only [Prod.mk.injEq, Except.ok.injEq] at h
            intro last' hlast'
            rw [← h.1, hlast] at hlast'
            obtain rfl : last = last' := Option.some_inj.mp hlast'
            exact Or.inr (List.isEmpty_iff.mp hempty)
          · simp only [Prod.mk.injEq] at h
            exact ih (data ++ feed (some last.mail_id)) res
              (fetchMailRun feed bu n (data ++ feed (some last.mail_id))).2
              (by rw [← h.1])

/-- Witness for C9: a one-record run that terminated because its follow-up
fetch was empty satisfies the stop-condition disjunction. -/
theorem fetch_mail_stop_conditions_witness :
    mailA.timestamp < 100 ∨ mailFeedOnePage (some mailA.mail_id) = [] :=
  fetch_mail_default_window_and_stop_conditions.2
    mailFeedOnePage 100 3 [mailA] [mailA] [some 1] rfl mailA rfl

/-!
## Pagination compaction (`compact_pagination`, src/lib.py 270-289) and the
reassembly loop of `fetch` (src/lib.py 167-172)

`compact_pagination` iterates over a snapshot of the dict
(`for key, value in dict(data).items():`), skipping keys without a hyphen;
for a fragment key it extends (or creates) the binding of the root
`key.split('-')[0]` and deletes the fragment key.  The snapshot is the dict
itself, so the fold runs over `data` starting from `data`.

In `fetch`, `multi_request` hands back one `(request, response)` pair per
operation and the loop `for pair in results: for op_key_name, op_pair in
operations.items(): if pair[0] == op_pair[0]: fetched[op_key_name] =
pair[1].data` inserts keys into `fetched` in the order the pairs appear in
`results` — each result is identified here by the op key its request
matches.  Nothing in the code reorders them by page number.
-/

/-- `'-' in key`, over the string's characters (kernel-reducible, unlike
`String.contains`). -/
def pyContainsHyphen (k : String) : Bool := k.data.contains '-'

/-- `key.split('-')[0]`: the prefix of the key up to the first hyphen. -/
def pyRoot (k : String) : String := ⟨k.data.takeWhile (fun c => c ≠ '-')⟩

/-- One iteration of the `compact_pagination` loop body. -/
def compactStep {β : Type} (data : List (String × List β)) (kv : String × List β) :
    List (String × List β) :=
  if pyContainsHyphen kv.1 = false then data
  else
    ddel
      (match dlookup data (pyRoot kv.1) with
        | some cur => dset data (pyRoot kv.1) (cur ++ kv.2)
        | none => dset data (pyRoot kv.1) kv.2)
      kv.1

/-- `compact_pagination`: fold the loop body over the snapshot of `data`. -/
def compact_pagination {β : Type} (data : List (String × List β)) :
    List (String × List β) :=
  data.foldl compactStep data

/-- The result-collection loop of `fetch`: for each arrived result pair, scan
the operations and bind the matching op key to the result's records. -/
def multiReassemble {β : Type} (opKeys : List String)
    (results : List (String × List β)) : List (String × List β) :=
  results.foldl
    (fun fetched pair =>
      opKeys.foldl (fun f k => if pair.1 = k then dset f k pair.2 else f) fetched)
    []

theorem hyphen_ne {k r : String} (h1 : pyContainsHyphen k = true)
    (h2 : pyContainsHyphen r = false) : k ≠ r := by
  intro h
  rw [h] at h1
  rw [h1] at h2
  exact Bool.noConfusion h2

theorem dlookup_ne_none_of_mem {κ ν : Type} [DecidableEq κ]
    (d : List (κ × ν)) (k : κ) (h : k ∈ d.map Prod.fst) :
    dlookup d k ≠ none := by
  induction d with
  | nil => simp at h
  | cons p rest ih =>
    simp only [List.map_cons, List.mem_cons] at h
    by_cases hk : p.1 = k
    · simp [dlookup, hk]
    · simp only [dlookup, hk, if_false]
      exact ih (h.resolve_left (fun hh => hk hh.symm))

theorem dlookup_append_right {κ ν : Type} [DecidableEq κ]
    (l m : List (κ × ν)) (k : κ) (h : k ∉ l.map Prod.fst) :
    dlookup (l ++ m) k = dlookup m k := by
  induction l with
  | nil => simp
  | cons p rest ih =>
    simp only [List.map_cons, List.mem_cons] at h
    push_neg at h
    simp [dlookup, Ne.symm h.1, ih h.2]

theorem dset_append_right {κ ν : Type} [DecidableEq κ]
    (l m : List (κ × ν)) (k : κ) (v : ν) (h : k ∉ l.map Prod.fst) :
    dset (l ++ m) k v = l ++ dset m k v := by
  induction l with
  | nil => simp
  | cons p rest ih =>
    simp only [List.map_cons, List.mem_cons] at h
    push_neg at h
    simp [dset, Ne.symm h.1, ih h.2]

/-- Invariant of the compaction loop over a snapshot consisting solely of
fragments of one root `r`, with the partially merged root binding sitting at
the end of the dict: the loop consumes the fragments in snapshot order and
appends their records to the root binding. -/
theorem compact_frags_loop {β : Type} (r : String) (hr : pyContainsHyphen r = false) :
    ∀ (snap : List (String × List β)) (acc : List β),
      (∀ p ∈ snap, pyContainsHyphen p.1 = true ∧ pyRoot p.1 = r) →
      snap.foldl compactStep (snap ++ [(r, acc)]) =
        [(r, acc ++ (snap.map Prod.snd).flatten)] := by
  intro snap
  induction snap with
  | nil => simp
  | cons p rest ih =>
    intro acc hfrag
    obtain ⟨hp, hproot⟩ := hfrag p (by simp)
    have hptail : ∀ q ∈ rest, pyContainsHyphen q.1 = true ∧ pyRoot q.1 = r :=
      fun q hq => hfrag q (by simp [hq])
    have hnotr : r ∉ ((p :: rest).map Prod.fst) := by
      simp only [List.mem_map]
      rintro ⟨q, hq, hqr⟩
      exact hyphen_ne (hfrag q hq).1 hr hqr
    have hlook : dlookup ((p :: rest) ++ [(r, acc)]) r = some acc := by
      rw [dlookup_append_right _ _ _ hnotr]
      simp [dlookup]
    have hset : dset ((p :: rest) ++ [(r, acc)]) r (acc ++ p.2) =
        (p :: rest) ++ [(r, acc ++ p.2)] := by
      rw [dset_append_right _ _ _ _ hnotr]
      simp [dset]
    have hstep : compactStep ((p :: rest) ++ [(r, acc)]) p =
        rest ++ [(r, acc ++ p.2)] := by
      rw [compactStep, if_neg (by simp [hp]), hproot, hlook]
      simp only [hset]
      have : (p :: rest) ++ [(r, acc ++ p.2)] =
          (p.1, p.2) :: (rest ++ [(r, acc ++ p.2)]) := by simp
      rw [this, ddel, if_pos rfl]
    calc (p :: rest).foldl compactStep ((p :: rest) ++ [(r, acc)])
        = rest.foldl compactStep (rest ++ [(r, acc ++ p.2)]) := by
          rw [List.foldl_cons, hstep]
      _ = [(r, (acc ++ p.2) ++ (rest.map Prod.snd).flatten)] := ih (acc ++ p.2) hptail
      _ = [(r, acc ++ ((p :: rest).map Prod.snd).flatten)] := by simp

/-- Compacting a dict that consists solely of fragments of one root `r`
merges them, in dict (insertion) order, into the single binding of `r`. -/
theorem compact_fragments_core {β : Type} (r : String)
    (hr : pyContainsHyphen r = false) (p₀ : String × List β)
    (rest : List (String × List β))
    (hfrag : ∀ p ∈ p₀ :: rest, pyContainsHyphen p.1 = true ∧ pyRoot p.1 = r) :
    compact_pagination (p₀ :: rest) =
      [(r, ((p₀ :: rest).map Prod.snd).flatten)] := by
  have hnotr : r ∉ ((p₀ :: rest).map Prod.fst) := by
    simp only [List.mem_map]
    rintro ⟨q, hq, hqr⟩
    exact hyphen_ne (hfrag q hq).1 hr hqr
  obtain ⟨hp, hproot⟩ := hfrag p₀ (by simp)
  have hlook : dlookup (p₀ :: rest) r = none :=
    dlookup_eq_none_of_not_mem _ _ hnotr
  have hstep : compactStep (p₀ :: rest) p₀ = rest ++ [(r, p₀.2)] := by
    rw [compactStep, if_neg (by simp [hp]), hproot, hlook]
    simp only [dset_fresh _ _ _ hnotr]
    have : (p₀ :: rest) ++ [(r, p₀.2)] =
        (p₀.1, p₀.2) :: (rest ++ [(r, p₀.2)]) := by simp
    rw [this, ddel, if_pos rfl]
  rw [compact_pagination, List.foldl_cons, hstep,
    compact_frags_loop r hr rest p₀.2 (fun q hq => hfrag q (by simp [hq]))]
  simp

theorem foldl_match_nop {β : Type} (p : String × List β) (ks : List String)
    (f : List (String × List β)) (h : ks.count p.1 = 0) :
    ks.foldl (fun f k => if p.1 = k then dset f k p.2 else f) f = f := by
  induction ks generalizing f with
  | nil => rfl
  | cons k ks ih =>
    rw [List.count_cons] at h
    simp only [beq_iff_eq] at h
    by_cases hk : p.1 = k
    · simp [hk.symm] at h
    · simp only [List.foldl_cons, if_neg hk]
      rw [if_neg (fun hh => hk hh.symm), add_zero] at h
      exact ih f h

theorem foldl_match_dset {β : Type} (p : String × List β) (ks : List String)
    (f : List (String × List β)) (h : ks.count p.1 = 1) :
    ks.foldl (fun f k => if p.1 = k then dset f k p.2 else f) f =
      dset f p.1 p.2 := by
  induction ks generalizing f with
  | nil => simp at h
  | cons k ks ih =>
    rw [List.count_cons] at h
    simp only [beq_iff_eq] at h
    by_cases hk : p.1 = k
    · rw [if_pos hk.symm] at h
      simp only [List.foldl_cons, if_pos hk]
      rw [← hk]
      exact foldl_match_nop p ks _ (by omega)
    · rw [if_neg (fun hh => hk hh.symm), add_zero] at h
      simp only [List.foldl_cons, if_neg hk]
      exact ih f h

/-- When each arrived result matches exactly one operation and the result
keys are pairwise distinct, the reassembly loop of `fetch` produces the
results as a dict *in arrival order*. -/
theorem multiReassemble_arrival {β : Type} (opKeys : List String)
    (results : List (String × List β))
    (hcount : ∀ p ∈ results, opKeys.count p.1 = 1)
    (hnd : (results.map Prod.fst).Nodup) :
    multiReassemble opKeys results = results := by
  rw [multiReassemble]
  have hext : results.foldl
      (fun fetched pair =>
        opKeys.foldl (fun f k => if pair.1 = k then dset f k pair.2 else f) fetched)
      [] = results.foldl (fun d p => dset d p.1 p.2) [] := by
    apply List.foldl_ext
    intro acc p hp
    exact foldl_match_dset p opKeys acc (hcount p hp)
  rw [hext]
  simpa using foldl_dset_eq_append results [] (by simp) hnd

/-- C4 counterexample: three pages `[1]`, `[2]`, `[3]` for resource
`journal`, with page 2's response arriving first; the merged sequence is
`[2, 1, 3]`, not the page-order concatenation `[1, 2, 3]`. -/
theorem fetch_pages_not_merged_in_page_order :
    dlookup
      (compact_pagination
        (multiReassemble ["journal-1", "journal-2", "journal-3"]
          [("journal-2", [(2 : Nat)]), ("journal-1", [1]), ("journal-3", [3])]))
      "journal" ≠ some [1, 2, 3] := by
  decide

/-- C4 (amended): the reassembly loop of `fetch` keys results in response
arrival order and `compact_pagination` concatenates in that dict order, so
the final merged sequence equals the concatenation of the pages' record
lists in *response-arrival* order; it is the page-order concatenation only
when the responses arrive in page order. -/
theorem fetch_merges_pages_in_arrival_order {β : Type} (r : String)
    (hr : pyContainsHyphen r = false) (opKeys : List String)
    (p₀ : String × List β) (rest : List (String × List β))
    (hfrag : ∀ p ∈ p₀ :: rest, pyContainsHyphen p.1 = true ∧ pyRoot p.1 = r)
    (hcount : ∀ p ∈ p₀ :: rest, opKeys.count p.1 = 1)
    (hnd : ((p₀ :: rest).map Prod.fst).Nodup) :
    compact_pagination (multiReassemble opKeys (p₀ :: rest)) =
      [(r, ((p₀ :: rest).map Prod.snd).flatten)] := by
  rw [multiReassemble_arrival opKeys _ hcount hnd]
  exact compact_fragments_core r hr p₀ rest hfrag

/-- Witness for the amended C4: the three-page scenario with page 2 arriving
first merges to `[2, 1, 3]` — the arrival-order concatenation. -/
theorem fetch_merges_pages_in_arrival_order_witness :
    compact_pagination
      (multiReassemble ["journal-1", "journal-2", "journal-3"]
        [("journal-2", [(2 : Nat)]), ("journal-1", [1]), ("journal-3", [3])]) =
      [("journal", [2, 1, 3])] :=
  fetch_merges_pages_in_arrival_order "journal" (by decide)
    ["journal-1", "journal-2", "journal-3"] ("journal-2", [2])
    [("journal-1", [1]), ("journal-3", [3])] (by decide) (by decide) (by decide)

/-- C5 counterexample: a dict holding `journal-2` before `journal-1` (as
happens when page 2's response arrives first) compacts to the insertion-order
concatenation `[20, 10]`, not the fragment-index-order `[10, 20]`. -/
theorem compact_pagination_not_fragment_index_order :
    dlookup
      (compact_pagination [("journal-2", [(20 : Nat)]), ("journal-1", [10])])
      "journal" ≠ some [10, 20] := by
  decide

/-- C5 (amended): compacting a dict of fragments of one base name leaves
exactly the base key, bound to the concatenation of the fragments' record
lists in *dict-insertion* order (fragment-index order only when the
fragments were inserted in index order); no fragment key remains. -/
theorem compact_pagination_merges_fragments_in_insertion_order {β : Type}
    (r : String) (hr : pyContainsHyphen r = false) (p₀ : String × List β)
    (rest : List (String × List β))
    (hfrag : ∀ p ∈ p₀ :: rest, pyContainsHyphen p.1 = true ∧ pyRoot p.1 = r) :
    compact_pagination (p₀ :: rest) =
      [(r, ((p₀ :: rest).map Prod.snd).flatten)] :=
  compact_fragments_core r hr p₀ rest hfrag

/-- Witness for the amended C5: `{"journal-1": [10], "journal-2": [20]}`
compacts to `{"journal": [10, 20]}`. -/
theorem compact_pagination_insertion_order_witness :
    compact_pagination [("journal-1", [(10 : Nat)]), ("journal-2", [20])] =
      [("journal", [10, 20])] :=
  compact_pagination_merges_fragments_in_insertion_order "journal" (by decide)
    ("journal-1", [10]) [("journal-2", [20])] (by decide)

/-- One compaction step never touches the binding of a hyphen-free key that
is not the root of the processed fragment. -/
theorem compactStep_frame {β : Type} (k : String)
    (hk : pyContainsHyphen k = false) (data : List (String × List β))
    (p : String × List β) (hroot : pyContainsHyphen p.1 = true → pyRoot p.1 ≠ k) :
    dlookup (compactStep data p) k = dlookup data k := by
  rw [compactStep]
  by_cases hp : pyContainsHyphen p.1 = false
  · rw [if_pos hp]
  · have hp' : pyContainsHyphen p.1 = true := by
      cases hcase : pyContainsHyphen p.1
      · exact absurd hcase hp
      · rfl
    rw [if_neg hp]
    have hne1 : k ≠ p.1 := Ne.symm (hyphen_ne hp' hk)
    have hne2 : k ≠ pyRoot p.1 := Ne.symm (hroot hp')
    rw [dlookup_ddel_ne _ _ _ hne1]
    cases hcl : dlookup data (pyRoot p.1) with
    | some cur => exact dlookup_dset_ne _ _ _ _ hne2
    | none => exact dlookup_dset_ne _ _ _ _ hne2

theorem compact_loop_frame {β : Type} (k : String)
    (hk : pyContainsHyphen k = false) :
    ∀ (snap data : List (String × List β)),
      (∀ p ∈ snap, pyContainsHyphen p.1 = true → pyRoot p.1 ≠ k) →
      dlookup (snap.foldl compactStep data) k = dlookup data k := by
  intro snap
  induction snap with
  | nil => intro data _; rfl
  | cons p rest ih =>
    intro data hroot
    rw [List.foldl_cons, ih (compactStep data p) (fun q hq => hroot q (by simp [hq])),
      compactStep_frame k hk data p (hroot p (by simp))]

/-- C10: `compact_pagination` only touches fragment keys (those containing a
hyphen) and the roots they merge into: any hyphen-free key of the input dict
that is no fragment's root keeps its binding, unchanged and present. -/
theorem compact_pagination_frame {β : Type} (data : List (String × List β))
    (k : String) (hk : pyContainsHyphen k = false)
    (hroot : ∀ p ∈ data, pyContainsHyphen p.1 = true → pyRoot p.1 ≠ k)
    (hmem : k ∈ data.map Prod.fst) :
    dlookup (compact_pagination data) k = dlookup data k ∧
    dlookup (compact_pagination data) k ≠ none := by
  rw [compact_pagination]
  have h := compact_loop_frame k hk data data hroot
  exact ⟨h, by rw [h]; exact dlookup_ne_none_of_mem data k hmem⟩

/-- Witness for C10: compacting `{"assets": [5], "journal-1": [1],
"journal-2": [2]}` leaves the `assets` binding present and unchanged. -/
theorem compact_pagination_frame_witness :
    dlookup
      (compact_pagination
        [("assets", [(5 : Nat)]), ("journal-1", [1]), ("journal-2", [2])])
      "assets" =
      dlookup [("assets", [(5 : Nat)]), ("journal-1", [1]), ("journal-2", [2])]
        "assets" ∧
    dlookup
      (compact_pagination
        [("assets", [(5 : Nat)]), ("journal-1", [1]), ("journal-2", [2])])
      "assets" ≠ none :=
  compact_pagination_frame
    [("assets", [(5 : Nat)]), ("journal-1", [1]), ("journal-2", [2])] "assets"
    (by decide) (by decide) (by decide)

/-!
## Name/type resolution pass (`resolve_names` src/lib.py 226-268,
`resolve_type_ids` src/lib.py 179-197, `_do_sde_query` src/lib.py 46-62)

`resolve_names` runs after compaction, when the dataset holds the singular
resource keys; the loop dispatches on the key names `history`, `journal`,
`contacts`, `mail`, whose value shapes are fixed, so the dataset is embedded
as a record of typed lists.  The dict iteration order only affects the order
ids are accumulated in; we fix the source's key order.  Every `*_name` field
is written with `ids_lookup.get(id, '<unknown>')`.

`resolve_type_ids` queries the SDE database with
`SELECT typeID, typeName from invTypes where typeID in (?…)`; under SQLite
semantics this returns the table rows whose `typeID` is among the passed ids
(an empty `IN ()` list is allowed by SQLite and is false for every row), in
table order.  The table is a parameter.
-/

structure AssetRec where
  type_id : Nat
  type_name : Option String := none
deriving DecidableEq

structure HistoryRec where
  corporation_id : Nat
  corporation_name : Option String := none
deriving DecidableEq

structure JournalRec where
  first_party_id : Nat
  second_party_id : Nat
  first_party_name : Option String := none
  second_party_name : Option String := none
deriving DecidableEq

structure ContactRec where
  contact_id : Nat
  contact_name : Option String := none
deriving DecidableEq

/-- The post-compaction dataset as seen by `resolve_names`. -/
structure Dataset where
  history : List HistoryRec := []
  journal : List JournalRec := []
  contacts : List ContactRec := []
  mail : List MailRec := []
deriving DecidableEq

/-- `_do_sde_query` on the invTypes name query: the rows of the table whose
`typeID` is among `ids`, in table order (SQLite `IN` with an empty list is
false for every row, so an empty id list yields no rows). -/
def sdeQuery (table : List (Nat × String)) (ids : List Nat) :
    List (Nat × String) :=
  table.filter (fun row => ids.contains row.1)

/-- The `item_lookups` dict built from the query rows. -/
def sdeLookups (table : List (Nat × String)) (ids : List Nat) :
    List (Nat × String) :=
  buildLookup (sdeQuery table ids)

/-- `resolve_type_ids`: give every asset its `type_name`, defaulting to
`'<unknown>'`. -/
def resolve_type_ids (table : List (Nat × String)) (data : List AssetRec) :
    List AssetRec :=
  let ids := data.map (fun item => item.type_id)
  let item_lookups := sdeLookups table ids
  data.map (fun item =>
    { item with
      type_name := some ((dlookup item_lookups item.type_id).getD "<unknown>") })

/-- The id-accumulation loop of `resolve_names`. -/
def collectResolutionIds (d : Dataset) : List Nat :=
  d.history.map (fun item => item.corporation_id)
    ++ d.journal.flatMap (fun item => [item.first_party_id, item.second_party_id])
    ++ d.contacts.map (fun item => item.contact_id)
    ++ d.mail.flatMap
        (fun item => item.fromId :: item.recipients.map (fun r => r.recipient_id))

/-- `ids_lookup.get(id, '<unknown>')`. -/
def lookupOrUnknown (ids_lookup : List (Nat × String)) (i : Nat) : String :=
  (dlookup ids_lookup i).getD "<unknown>"

/-- `resolve_names`: accumulate the ids, resolve them through
`_ids_to_names`, and back-fill every `*_name` field. -/
def resolve_names (client : Nat → List Nat → CallOutcome) (d : Dataset) :
    Dataset :=
  let ids_lookup := ids_to_names client (collectResolutionIds d)
  { history := d.history.map (fun item =>
      { item with
        corporation_name := some (lookupOrUnknown ids_lookup item.corporation_id) })
    journal := d.journal.map (fun item =>
      { item with
        first_party_name := some (lookupOrUnknown ids_lookup item.first_party_id)
        second_party_name := some (lookupOrUnknown ids_lookup item.second_party_id) })
    contacts := d.contacts.map (fun item =>
      { item with
        contact_name := some (lookupOrUnknown ids_lookup item.contact_id) })
    mail := d.mail.map (fun item =>
      { item with
        from_name := some (lookupOrUnknown ids_lookup item.fromId)
        recipients := item.recipients.map (fun r =>
          { r with
            recipient_name := some (lookupOrUnknown ids_lookup r.recipient_id) }) }) }

theorem dlookup_foldl_dset_not_mem {κ ν : Type} [DecidableEq κ]
    (l : List (κ × ν)) :
    ∀ (acc : List (κ × ν)) (k : κ), k ∉ l.map Prod.fst →
    dlookup (l.foldl (fun d p => dset d p.1 p.2) acc) k = dlookup acc k := by
  induction l with
  | nil => intro acc k _; rfl
  | cons p rest ih =>
    intro acc k hk
    simp only [List.map_cons, List.mem_cons] at hk
    push_neg at hk
    rw [List.foldl_cons, ih _ k hk.2, dlookup_dset_ne _ _ _ _ hk.1]

/-- C8: the Reference Lookup Store query of `resolve_type_ids` satisfies the
lookup contract: an empty id list yields an empty mapping (the SQLite
`IN ()` matches no row), and an id not present in the reference table is
simply absent from the returned mapping. -/
theorem sde_lookup_contract :
    (∀ table : List (Nat × String), sdeLookups table [] = []) ∧
    (∀ (table : List (Nat × String)) (ids : List Nat) (k : Nat),
      k ∉ table.map Prod.fst → dlookup (sdeLookups table ids) k = none) := by
  constructor
  · intro table
    simp [sdeLookups, sdeQuery, buildLookup]
  · intro table ids k hk
    have hq : k ∉ (sdeQuery table ids).map Prod.fst := by
      intro hmem
      obtain ⟨row, hrow, rfl⟩ := List.mem_map.mp hmem
      exact hk (List.mem_map_of_mem Prod.fst (List.mem_of_mem_filter hrow))
    calc dlookup (sdeLookups table ids) k
        = dlookup ([] : List (Nat × String)) k :=
          dlookup_foldl_dset_not_mem (sdeQuery table ids) [] k hq
      _ = none := rfl

/-- Witness for C8: id 5 is unknown to a one-row table, so it is absent from
the mapping (and the empty-input case returns the empty mapping). -/
theorem sde_lookup_contract_witness :
    sdeLookups [((1 : Nat), "Tritanium")] [] = [] ∧
    dlookup (sdeLookups [((1 : Nat), "Tritanium")] [2, 5]) 5 = none :=
  ⟨sde_lookup_contract.1 [(1, "Tritanium")],
    sde_lookup_contract.2 [(1, "Tritanium")] [2, 5] 5 (by decide)⟩

/-- C7: after the resolution pass, every field tagged for resolution carries
a populated `*_name` field — history `corporation_name`, journal
`first_party_name`/`second_party_name`, contact `contact_name`, mail
`from_name` and each recipient's `recipient_name`, asset `type_name` — and
whenever the id is absent from the resolution result (or reference table
lookup), the field holds the placeholder `'<unknown>'` rather than being
missing. -/
theorem resolution_pass_fully_populates :
    ∀ (client : Nat → List Nat → CallOutcome) (d : Dataset)
      (table : List (Nat × String)) (assets : List AssetRec),
      (∀ h ∈ (resolve_names client d).history,
        ∃ s, h.corporation_name = some s ∧
          (dlookup (ids_to_names client (collectResolutionIds d))
              h.corporation_id = none → s = "<unknown>")) ∧
      (∀ j ∈ (resolve_names client d).journal,
        (∃ s, j.first_party_name = some s ∧
          (dlookup (ids_to_names client (collectResolutionIds d))
              j.first_party_id = none → s = "<unknown>")) ∧
        (∃ s, j.second_party_name = some s ∧
          (dlookup (ids_to_names client (collectResolutionIds d))
              j.second_party_id = none → s = "<unknown>"))) ∧
      (∀ c ∈ (resolve_names client d).contacts,
        ∃ s, c.contact_name = some s ∧
          (dlookup (ids_to_names client (collectResolutionIds d))
              c.contact_id = none → s = "<unknown>")) ∧
      (∀ m ∈ (resolve_names client d).mail,
        (∃ s, m.from_name = some s ∧
          (dlookup (ids_to_names client (collectResolutionIds d))
              m.fromId = none → s = "<unknown>")) ∧
        (∀ r ∈ m.recipients,
          ∃ s, r.recipient_name = some s ∧
            (dlookup (ids_to_names client (collectResolutionIds d))
                r.recipient_id = none → s = "<unknown>"))) ∧
      (∀ a ∈ resolve_type_ids table assets,
        ∃ s, a.type_name = some s ∧
          (dlookup (sdeLookups table (assets.map (fun i => i.type_id)))
              a.type_id = none → s = "<unknown>")) := by
  intro client d table assets
  refine ⟨?_, ?_, ?_, ?_, ?_⟩
  · intro h hh
    simp only [resolve_names] at hh
    obtain ⟨h₀, _, rfl⟩ := List.mem_map.mp hh
    exact ⟨_, rfl, fun hn => by simp [lookupOrUnknown, hn]⟩
  · intro j hj
    simp only [resolve_names] at hj
    obtain ⟨j₀, _, rfl⟩ := List.mem_map.mp hj
    exact ⟨⟨_, rfl, fun hn => by simp [lookupOrUnknown, hn]⟩,
      ⟨_, rfl, fun hn => by simp [lookupOrUnknown, hn]⟩⟩
  · intro c hc
    simp only [resolve_names] at hc
    obtain ⟨c₀, _, rfl⟩ := List.mem_map.mp hc
    exact ⟨_, rfl, fun hn => by simp [lookupOrUnknown, hn]⟩
  · intro m hm
    simp only [resolve_names] at hm
    obtain ⟨m₀, _, rfl⟩ := List.mem_map.mp hm
    refine ⟨⟨_, rfl, fun hn => by simp [lookupOrUnknown, hn]⟩, ?_⟩
    intro r hr
    simp only at hr
    obtain ⟨r₀, _, rfl⟩ := List.mem_map.mp hr
    exact ⟨_, rfl, fun hn => by simp [lookupOrUnknown, hn]⟩
  · intro a ha
    simp only [resolve_type_ids] at ha
    obtain ⟨a₀, _, rfl⟩ := List.mem_map.mp ha
    exact ⟨_, rfl, fun hn => by simp [hn]⟩

/-- Client environment in which every resolution call raises. -/
def clientAllCallsRaise : Nat → List Nat → CallOutcome := fun _i _p => .exn

/-- A dataset holding one corporation-history record. -/
def datasetOneHistory : Dataset := { history := [{ corporation_id := 7 }] }

/-- Witness for C7: with every resolution call failing, the single history
record still comes out with `corporation_name` populated, by the unknown
sentinel. -/
theorem resolution_pass_fully_populates_witness :
    ∃ s, (HistoryRec.mk 7 (some "<unknown>")).corporation_name = some s ∧
      (dlookup (ids_to_names clientAllCallsRaise
          (collectResolutionIds datasetOneHistory)) (HistoryRec.mk 7
          (some "<unknown>")).corporation_id = none → s = "<unknown>") :=
  (resolution_pass_fully_populates clientAllCallsRaise datasetOneHistory
      [] []).1 (HistoryRec.mk 7 (some "<unknown>")) (by decide)
